import Mathlib

/-!
Verification of the jsflap automaton engine (src/utils/engine.ts, src/utils/utils.ts).

The graph model, validators, compilers and the DFA/NFA evaluator are embedded
shallowly.  JS object references are modelled by a numeric `id` field (distinct
objects have distinct ids); JS `Set` is an insertion-ordered duplicate-free
list; JS `Map` is an insertion-ordered association list.  JS strings are
modelled as Lean `String`s at code-point granularity (all symbols appearing in
the claims are single BMP code points, where the two notions of length agree).
The unbounded `while (true)` loop of `_faEval` is given explicit fuel; `none`
means the loop has not returned within the supplied fuel.
-/

set_option maxHeartbeats 1000000

namespace JSFlap

/-- The reserved epsilon symbol: `export const EPSILON = 'ε'` (src/utils/utils.ts). -/
def EPSILON : String := "ε"

/-- Editor-facing graph node (`Node` in src/utils/node.ts): `label`, `start`,
`end`.  `id` models JS reference identity; `end_` renames the keyword `end`. -/
structure GNode where
  id : Nat
  label : String
  start : Bool
  end_ : Bool
  deriving DecidableEq

/-- Editor-facing transition (`Transition`): `from`, `to`, `conditions` (ordered
list of raw condition strings).  `from_` renames the keyword `from`. -/
structure GTransition where
  id : Nat
  from_ : GNode
  to_ : GNode
  conditions : List String
  deriving DecidableEq

/-- The logical graph handed to `validate`/`compile`:
`nodes = this.layers[1]`, `transitions = this.layers[0]`, in layer order. -/
structure Graph where
  nodes : List GNode
  transitions : List GTransition
  deriving DecidableEq

/-- Errors thrown by the engine, by constructor of src/utils/utils.ts
(`Error`, `MachineValidationError`, `ConditionError`, `SymbolError`);
callers distinguish them only by message content, so the constructor
arguments are retained verbatim (quotes dropped from the messages). -/
inductive JSError where
  | plain (msg : String)
  | machineValidation (machineType : String) (msg : String)
  | conditionError (machineType cond fromLabel toLabel extra : String)
  | symbolError (machineType sym fromLabel toLabel extra : String)
  deriving DecidableEq

instance {ε α : Type} [DecidableEq ε] [DecidableEq α] : DecidableEq (Except ε α) :=
  fun a b =>
    match a, b with
    | .ok x, .ok y =>
      match decEq x y with
      | isTrue h => isTrue (by rw [h])
      | isFalse h => isFalse (fun hc => h (by cases hc; rfl))
    | .error x, .error y =>
      match decEq x y with
      | isTrue h => isTrue (by rw [h])
      | isFalse h => isFalse (fun hc => h (by cases hc; rfl))
    | .ok _, .error _ => isFalse (fun hc => by cases hc)
    | .error _, .ok _ => isFalse (fun hc => by cases hc)

/-- JS `Set.add`: append unless already present (insertion order kept). -/
def jsAdd (s : List String) (x : String) : List String :=
  if x ∈ s then s else s ++ [x]

/-- JS `new Set(iterable)`: dedup preserving first occurrences. -/
def jsSetOf (l : List String) : List String :=
  l.foldl jsAdd []

/-- Occurrence count of a string in a list (used to state determinism). -/
def countOcc (x : String) : List String → Nat
  | [] => 0
  | y :: rest => (if y = x then 1 else 0) + countOcc x rest

/-- JS `Map.set` as used for `outgoingTransitions`: update the existing key in
place, otherwise append the new key at the end. -/
def mapAdd (out : List (GNode × List GTransition)) (t : GTransition) :
    List (GNode × List GTransition) :=
  match out with
  | [] => [(t.from_, [t])]
  | (n, ts) :: rest =>
    if n = t.from_ then (n, ts ++ [t]) :: rest else (n, ts) :: mapAdd rest t

/-- Association-list lookup mirroring `Map.get` (first matching key). -/
def outLookup : List (GNode × List GTransition) → GNode → List GTransition
  | [], _ => []
  | (m, ts) :: rest, n => if m = n then ts else outLookup rest n

/-- Name `'DFA'` / `'NFA'` taken from the `as` parameter. -/
def faName (isDFA : Bool) : String := if isDFA then "DFA" else "NFA"

/-- The start-state scan of `validate` (DFA/NFA case, engine.ts lines 446-455):
DFA faults on a second start node, otherwise the last start node wins. -/
def findInitial (isDFA : Bool) : List GNode → Option GNode → Except JSError (Option GNode)
  | [], acc => .ok acc
  | n :: rest, acc =>
    if isDFA = true ∧ acc.isSome ∧ n.start = true then
      .error (.plain ("Failed to validate as " ++ faName isDFA ++ ": " ++
        ((acc.map GNode.label).getD "") ++ " and " ++ n.label ++
        " states both marked as initial states."))
    else if n.start then findInitial isDFA rest (some n)
    else findInitial isDFA rest acc

/-- Per-condition body of the first transition loop (lines 464-472): each
symbol must be one character; with no explicit alphabet it is added. -/
def scanConds (isDFA explicit : Bool) (t : GTransition) :
    List String → List String → Except JSError (List String)
  | alpha, [] => .ok alpha
  | alpha, sym :: rest =>
    if sym.length ≠ 1 then
      .error (.symbolError (faName isDFA) sym t.from_.label t.to_.label
        "must be one character long")
    else scanConds isDFA explicit t (if explicit then alpha else jsAdd alpha sym) rest

/-- The first transition loop (lines 463-479): builds the (possibly inferred)
alphabet and the `outgoingTransitions` map. -/
def scanFA (isDFA explicit : Bool) :
    List GTransition → List String → List (GNode × List GTransition) →
    Except JSError (List String × List (GNode × List GTransition))
  | [], alpha, out => .ok (alpha, out)
  | t :: rest, alpha, out =>
    match scanConds isDFA explicit t alpha t.conditions with
    | .error e => .error e
    | .ok alpha' => scanFA isDFA explicit rest alpha' (mapAdd out t)

/-- Per-symbol body of the coverage loop (lines 485-495): NFA-only alphabet
membership (epsilon exempt), DFA/`requireAllTransitions` duplicate check,
then unconditional delete from `searching`. -/
def claimSyms (isDFA reqAll : Bool) (alpha : List String) (t : GTransition) (node : GNode) :
    List String → List String → Except JSError (List String)
  | searching, [] => .ok searching
  | searching, sym :: rest =>
    if sym ∉ alpha ∧ isDFA = false ∧ sym ≠ EPSILON then
      .error (.conditionError (faName isDFA) sym t.from_.label t.to_.label
        "not found in alphabet")
    else if (isDFA = true ∨ reqAll = true) ∧ sym ∉ searching then
      .error (.machineValidation (faName isDFA) ("Node " ++ node.label ++
        " has more than one outgoing transition for symbol " ++ sym ++ "."))
    else claimSyms isDFA reqAll alpha t node (searching.erase sym) rest

/-- The transition sub-loop of the coverage loop (lines 484-496). -/
def claimTrans (isDFA reqAll : Bool) (alpha : List String) (node : GNode) :
    List GTransition → List String → Except JSError (List String)
  | [], searching => .ok searching
  | t :: rest, searching =>
    match claimSyms isDFA reqAll alpha t node searching t.conditions with
    | .error e => .error e
    | .ok s' => claimTrans isDFA reqAll alpha node rest s'

/-- The coverage loop over `outgoingTransitions` (lines 481-506): per node a
fresh copy of the alphabet is consumed; leftover symbols fail DFA (or
`requireAllTransitions`) validation. -/
def checkCoverage (isDFA reqAll : Bool) (alpha : List String) :
    List (GNode × List GTransition) → Except JSError Unit
  | [] => .ok ()
  | (node, ts) :: rest =>
    match claimTrans isDFA reqAll alpha node ts alpha with
    | .error e => .error e
    | .ok s' =>
      if (isDFA = true ∨ reqAll = true) ∧ s'.length ≠ 0 then
        .error (.machineValidation (faName isDFA) ("Node " ++ node.label ++
          " is missing outgoing transitions for symbols " ++
          String.intercalate ", " s' ++ "."))
      else checkCoverage isDFA reqAll alpha rest

/-- Source expression `new Set(alphabet)` or the empty set (line 461). -/
def initAlpha (alphabet? : Option (List String)) : List String :=
  match alphabet? with
  | some l => jsSetOf l
  | none => []

/-- Method `validate` for `as = 'DFA'` (`isDFA = true`) or `'NFA'`
(engine.ts lines 443-509). -/
def validateFA (isDFA : Bool) (g : Graph) (alphabet? : Option (List String))
    (reqAll : Bool) : Except JSError Unit :=
  match findInitial isDFA g.nodes none with
  | .error e => .error e
  | .ok none =>
    .error (.plain ("Failed to validate as " ++ faName isDFA ++ ": no initial state."))
  | .ok (some _) =>
    match scanFA isDFA alphabet?.isSome g.transitions (initAlpha alphabet?) [] with
    | .error e => .error e
    | .ok (alpha, out) => checkCoverage isDFA reqAll alpha out

/-- All condition symbols of the graph, in source order. -/
def condSyms (g : Graph) : List String :=
  g.transitions.flatMap (fun t => t.conditions)

/-- The effective DFA/NFA alphabet: the explicit one, else the inferred union
of all condition symbols (insertion-ordered, duplicate-free). -/
def dfaAlpha (g : Graph) (alphabet? : Option (List String)) : List String :=
  match alphabet? with
  | some l => jsSetOf l
  | none => (condSyms g).foldl jsAdd []

/-- The outgoing transitions of a node, in graph order. -/
def transOf (g : Graph) (n : GNode) : List GTransition :=
  g.transitions.filter (fun t => decide (t.from_ = n))

/-- All symbols claimed by a node's outgoing transitions, in the order the
coverage loop consumes them. -/
def nodeClaims (g : Graph) (n : GNode) : List String :=
  (transOf g n).flatMap (fun t => t.conditions)

/-- JS `String.split(' ')` at code-point granularity: split at every single
space character, preserving empty segments. -/
def splitSpacesAux : List Char → List Char → List String
  | [], acc => [String.mk acc.reverse]
  | c :: rest, acc =>
    if c = ' ' then String.mk acc.reverse :: splitSpacesAux rest []
    else splitSpacesAux rest (c :: acc)

/-- JS `condition.split(' ')`. -/
def splitSpaces (s : String) : List String := splitSpacesAux s.toList []

/-- The JS regex `.` : any character except a line terminator. -/
def jsDot (c : Char) : Bool :=
  c != '\n' && c != '\r' && c != '\u2028' && c != '\u2029'

/-- One candidate match position of the unanchored regex `/. . [NPp] ./`
used by the PDA shape check (engine.ts line 528). -/
def pdaCondMatchAt (cs : List Char) (i : Nat) : Bool :=
  match cs[i]?, cs[i+1]?, cs[i+2]?, cs[i+3]?, cs[i+4]?, cs[i+5]?, cs[i+6]? with
  | some a, some b, some c, some d, some e, some f, some g =>
    jsDot a && b == ' ' && jsDot c && d == ' ' &&
    (e == 'N' || e == 'P' || e == 'p') && f == ' ' && jsDot g
  | _, _, _, _, _, _, _ => false

/-- Test `/. . [NPp] ./.test(condition)`: search every start position. -/
def pdaCondTest (s : String) : Bool :=
  (List.range s.toList.length).any (fun i => pdaCondMatchAt s.toList i)

/-- One candidate match position of the unanchored regex `/. . [NRL]/`
used by the Turing-machine shape check (engine.ts line 643). -/
def tmCondMatchAt (cs : List Char) (i : Nat) : Bool :=
  match cs[i]?, cs[i+1]?, cs[i+2]?, cs[i+3]?, cs[i+4]? with
  | some a, some b, some c, some d, some e =>
    jsDot a && b == ' ' && jsDot c && d == ' ' && (e == 'N' || e == 'R' || e == 'L')
  | _, _, _, _, _ => false

/-- Test `/. . [NRL]/.test(condition)`. -/
def tmCondTest (s : String) : Bool :=
  (List.range s.toList.length).any (fun i => tmCondMatchAt s.toList i)

/-- Per-condition body of the PDA validation transition loop (lines 527-554):
shape regex, field destructuring, one-character checks, the `Push`/`Pop`
equality check, then alphabet inference. -/
def scanPDACond (explicitA explicitS : Bool) (t : GTransition) :
    List String → List String → List String → Except JSError (List String × List String)
  | alpha, stackAlpha, [] => .ok (alpha, stackAlpha)
  | alpha, stackAlpha, cond :: rest =>
    if pdaCondTest cond = false then
      .error (.conditionError "PDA" cond t.from_.label t.to_.label
        "could not be parsed as a PDA condition")
    else
      let parts := splitSpaces cond
      let symbol := parts.getD 0 ""
      let readStackSymbol := parts.getD 1 ""
      let action := parts.getD 2 ""
      let actionStackSymbol := parts.getD 3 ""
      if symbol.length ≠ 1 then
        .error (.symbolError "PDA" symbol t.from_.label t.to_.label
          "must be one character long")
      else if readStackSymbol.length ≠ 1 then
        .error (.symbolError "PDA" readStackSymbol t.from_.label t.to_.label
          "must be one character long")
      else if actionStackSymbol.length ≠ 1 then
        .error (.symbolError "PDA" actionStackSymbol t.from_.label t.to_.label
          "must be one character long")
      else if action ≠ "Push" ∧ action ≠ "Pop" then
        .error (.machineValidation "PDA"
          ("Stack action " ++ action ++ " must be either Push or Pop."))
      else
        scanPDACond explicitA explicitS t
          (if explicitA then alpha else jsAdd alpha symbol)
          (if explicitS then stackAlpha
           else jsAdd (jsAdd stackAlpha readStackSymbol) actionStackSymbol)
          rest

/-- The PDA validation transition loop (lines 526-561). -/
def scanPDA (explicitA explicitS : Bool) :
    List GTransition → List String → List String → List (GNode × List GTransition) →
    Except JSError (List String × List String × List (GNode × List GTransition))
  | [], alpha, stackAlpha, out => .ok (alpha, stackAlpha, out)
  | t :: rest, alpha, stackAlpha, out =>
    match scanPDACond explicitA explicitS t alpha stackAlpha t.conditions with
    | .error e => .error e
    | .ok (alpha', stackAlpha') =>
      scanPDA explicitA explicitS rest alpha' stackAlpha' (mapAdd out t)

/-- Per-condition body of the PDA coverage loop (lines 567-581). -/
def pdaClaimConds (alpha stackAlpha : List String) (t : GTransition) :
    List String → List String → Except JSError (List String)
  | searching, [] => .ok searching
  | searching, cond :: rest =>
    let parts := splitSpaces cond
    let symbol := parts.getD 0 ""
    let readStackSymbol := parts.getD 1 ""
    let actionStackSymbol := parts.getD 3 ""
    if symbol ∉ alpha then
      .error (.conditionError "PDA" symbol t.from_.label t.to_.label
        "not found in alphabet")
    else if readStackSymbol ∉ stackAlpha then
      .error (.conditionError "PDA" readStackSymbol t.from_.label t.to_.label
        "not found in stack alphabet")
    else if actionStackSymbol ∉ stackAlpha then
      .error (.conditionError "PDA" actionStackSymbol t.from_.label t.to_.label
        "not found in stack alphabet")
    else pdaClaimConds alpha stackAlpha t (searching.erase symbol) rest

/-- The PDA coverage transition sub-loop (lines 566-582). -/
def pdaClaimTrans (alpha stackAlpha : List String) :
    List GTransition → List String → Except JSError (List String)
  | [], searching => .ok searching
  | t :: rest, searching =>
    match pdaClaimConds alpha stackAlpha t searching t.conditions with
    | .error e => .error e
    | .ok s' => pdaClaimTrans alpha stackAlpha rest s'

/-- The PDA coverage loop (lines 563-592). -/
def checkPDACoverage (reqAll : Bool) (alpha stackAlpha : List String) :
    List (GNode × List GTransition) → Except JSError Unit
  | [] => .ok ()
  | (node, ts) :: rest =>
    match pdaClaimTrans alpha stackAlpha ts alpha with
    | .error e => .error e
    | .ok s' =>
      if reqAll = true ∧ s'.length ≠ 0 then
        .error (.machineValidation "PDA" ("Node " ++ node.label ++
          " is missing outgoing transitions for symbols " ++
          String.intercalate ", " s' ++ "."))
      else checkPDACoverage reqAll alpha stackAlpha rest

/-- Method `validate` for `as = 'PDA'` (lines 510-595).  The start-state scan takes
the first start node (`break`), with no multiple-start check. -/
def validatePDA (g : Graph) (alphabet? stackAlphabet? : Option (List String))
    (reqAll : Bool) : Except JSError Unit :=
  match g.nodes.find? (fun n => n.start) with
  | none => .error (.plain "Failed to validate as PDA: no initial state.")
  | some _ =>
    match scanPDA alphabet?.isSome stackAlphabet?.isSome g.transitions
        (initAlpha alphabet?) (initAlpha stackAlphabet?) [] with
    | .error e => .error e
    | .ok (alpha, stackAlpha, out) => checkPDACoverage reqAll alpha stackAlpha out

/-- The Turing-machine start/accept/reject node scan (lines 597-626). -/
def scanTMNodes : List GNode → Option GNode → Option GNode → Option GNode →
    Except JSError (Option GNode × Option GNode × Option GNode)
  | [], i, a, r => .ok (i, a, r)
  | n :: rest, i, a, r =>
    if n.start = true ∧ i.isSome then
      .error (.machineValidation "Turing Machine" "Multiple starting states.")
    else
      let i' := if n.start then some n else i
      if n.end_ then
        if n.label = "accept" then
          if a.isSome then
            .error (.machineValidation "Turing Machine" "Multiple accept states.")
          else scanTMNodes rest i' (some n) r
        else if n.label = "reject" then
          if r.isSome then
            .error (.machineValidation "Turing Machine" "Multiple reject states.")
          else scanTMNodes rest i' a (some n)
        else
          .error (.machineValidation "Turing Machine"
            "An end state must be either an accept or a reject state (check labels).")
      else scanTMNodes rest i' a r

/-- Per-condition body of the TM validation transition loop (lines 642-666). -/
def scanTMCond (explicitA explicitT : Bool) (t : GTransition) :
    List String → List String → List String → Except JSError (List String × List String)
  | alpha, tapeAlpha, [] => .ok (alpha, tapeAlpha)
  | alpha, tapeAlpha, cond :: rest =>
    if tmCondTest cond = false then
      .error (.conditionError "Turing Machine" cond t.from_.label t.to_.label
        "could not be parsed as a Turing Machine condition")
    else
      let parts := splitSpaces cond
      let readSymbol := parts.getD 0 ""
      let writeSymbol := parts.getD 1 ""
      let movement := parts.getD 2 ""
      if readSymbol.length ≠ 1 then
        .error (.symbolError "Turing Machine" readSymbol t.from_.label t.to_.label
          "must be one character long")
      else if writeSymbol.length ≠ 1 then
        .error (.symbolError "Turing Machine" writeSymbol t.from_.label t.to_.label
          "must be one character long")
      else if movement ≠ "N" ∧ movement ≠ "R" ∧ movement ≠ "L" then
        .error (.machineValidation "Turing Machine"
          ("Stack action " ++ movement ++ " must be N, R, or L."))
      else
        scanTMCond explicitA explicitT t
          (if explicitA then alpha else jsAdd alpha readSymbol)
          (if explicitT then tapeAlpha
           else jsAdd (jsAdd tapeAlpha readSymbol) writeSymbol)
          rest

/-- The TM validation transition loop (lines 641-673). -/
def scanTM (explicitA explicitT : Bool) :
    List GTransition → List String → List String → List (GNode × List GTransition) →
    Except JSError (List String × List String × List (GNode × List GTransition))
  | [], alpha, tapeAlpha, out => .ok (alpha, tapeAlpha, out)
  | t :: rest, alpha, tapeAlpha, out =>
    match scanTMCond explicitA explicitT t alpha tapeAlpha t.conditions with
    | .error e => .error e
    | .ok (alpha', tapeAlpha') =>
      scanTM explicitA explicitT rest alpha' tapeAlpha' (mapAdd out t)

/-- Per-condition body of the TM coverage loop (lines 679-690). -/
def tmClaimConds (tapeAlpha : List String) (t : GTransition) :
    List String → List String → Except JSError (List String)
  | searching, [] => .ok searching
  | searching, cond :: rest =>
    let parts := splitSpaces cond
    let readSymbol := parts.getD 0 ""
    let writeSymbol := parts.getD 1 ""
    if readSymbol ∉ tapeAlpha then
      .error (.conditionError "Turing Machine" readSymbol t.from_.label t.to_.label
        "not found in tape alphabet")
    else if writeSymbol ∉ tapeAlpha then
      .error (.conditionError "Turing Machine" writeSymbol t.from_.label t.to_.label
        "not found in tape alphabet")
    else tmClaimConds tapeAlpha t (searching.erase readSymbol) rest

/-- The TM coverage transition sub-loop (lines 678-691). -/
def tmClaimTrans (tapeAlpha : List String) :
    List GTransition → List String → Except JSError (List String)
  | [], searching => .ok searching
  | t :: rest, searching =>
    match tmClaimConds tapeAlpha t searching t.conditions with
    | .error e => .error e
    | .ok s' => tmClaimTrans tapeAlpha rest s'

/-- The TM coverage loop (lines 675-701). -/
def checkTMCoverage (reqAll : Bool) (tapeAlpha : List String) :
    List (GNode × List GTransition) → Except JSError Unit
  | [] => .ok ()
  | (node, ts) :: rest =>
    match tmClaimTrans tapeAlpha ts tapeAlpha with
    | .error e => .error e
    | .ok s' =>
      if reqAll = true ∧ s'.length ≠ 0 then
        .error (.machineValidation "Turing Machine" ("Node " ++ node.label ++
          " is missing outgoing transitions for symbols " ++
          String.intercalate ", " s' ++ "."))
      else checkTMCoverage reqAll tapeAlpha rest

/-- Method `validate` for `as = 'Turing Machine'` (lines 596-704). -/
def validateTM (g : Graph) (alphabet? tapeAlphabet? : Option (List String))
    (reqAll : Bool) : Except JSError Unit :=
  match scanTMNodes g.nodes none none none with
  | .error e => .error e
  | .ok (i, a, r) =>
    if i.isNone then
      .error (.plain "Failed to validate as Turing Machine: no initial state.")
    else if a.isNone then
      .error (.plain "Failed to validate as Turing Machine: no accept state.")
    else if r.isNone then
      .error (.plain "Failed to validate as Turing Machine: no reject state.")
    else
      match scanTM alphabet?.isSome tapeAlphabet?.isSome g.transitions
          (initAlpha alphabet?) (initAlpha tapeAlphabet?) [] with
      | .error e => .error e
      | .ok (_, tapeAlpha, out) => checkTMCoverage reqAll tapeAlpha out

/-- Compiled DFA/NFA transition (`MachineTransition<State, string>`): states are
referenced by their index in the machine's state list (JS back-references). -/
structure CTransition where
  conditions : List String
  to_ : Nat
  deriving DecidableEq

/-- Compiled DFA/NFA state (`DFAState` / `NFAState`). -/
structure CState where
  label : String
  initial : Bool
  final : Bool
  transitions : List CTransition
  deriving DecidableEq

/-- Compiled PDA condition (`PDACondition`); `action` holds the raw string,
which the source constrains to `Push`/`Pop`. -/
structure CPDACondition where
  symbol : String
  readStackSymbol : String
  action : String
  actionStackSymbol : String
  deriving DecidableEq

/-- Compiled PDA transition. -/
structure CPDATransition where
  conditions : List CPDACondition
  to_ : Nat
  deriving DecidableEq

/-- Compiled PDA state (`PDAState`). -/
structure CPDAState where
  label : String
  initial : Bool
  final : Bool
  transitions : List CPDATransition
  deriving DecidableEq

/-- Compiled Turing-machine condition (`TMCondition`). -/
structure CTMCondition where
  readSymbol : String
  writeSymbol : String
  movement : String
  deriving DecidableEq

/-- Compiled Turing-machine transition. -/
structure CTMTransition where
  conditions : List CTMCondition
  to_ : Nat
  deriving DecidableEq

/-- Compiled Turing-machine state (`TMState`). -/
structure CTMState where
  label : String
  initial : Bool
  final : Bool
  transitions : List CTMTransition
  deriving DecidableEq

/-- The tagged union `DFA | NFA | PDA | TuringMachine` of src/utils/utils.ts,
with `initial`/`final` by the type's cardinality (single index for DFA/TM,
index list for NFA/PDA). -/
inductive CMachine where
  | dfa (states : List CState) (initial : Nat) (final : List Nat) (alphabet : List String)
  | nfa (states : List CState) (initial : List Nat) (final : List Nat) (alphabet : List String)
  | pda (states : List CPDAState) (initial : List Nat) (final : List Nat)
      (alphabet stackAlphabet : List String)
  | tm (states : List CTMState) (initial : Nat) (final : List Nat)
      (alphabet tapeAlphabet : List String)
  deriving DecidableEq

/-- Accessor `machine.alphabet` (present on every machine variant). -/
def CMachine.alphabet : CMachine → List String
  | .dfa _ _ _ a => a
  | .nfa _ _ _ a => a
  | .pda _ _ _ a _ => a
  | .tm _ _ _ a _ => a

/-- Whether the machine variant is PDA or Turing Machine (the `default`
branch of `Engine.eval`). -/
def CMachine.isPDAorTM : CMachine → Bool
  | .pda _ _ _ _ _ => true
  | .tm _ _ _ _ _ => true
  | _ => false

/-- Lookup `nodeMap.get(node)`: the index of a node in the machine's state list. -/
def nodeIdx (nodes : List GNode) (n : GNode) : Option Nat :=
  nodes.findIdx? (fun m => decide (m = n))

/-- In-place update of one list element (`array[i] = f(array[i])`). -/
def listModify {α : Type} (l : List α) (i : Nat) (f : α → α) : List α :=
  match l[i]? with
  | some x => l.set i (f x)
  | none => l

/-- First pass of `_compileDFA`/`_compileNFA`: one compiled state per node,
flags copied, empty transition lists. -/
def buildStatesFA (nodes : List GNode) : List CState :=
  nodes.map (fun n => ⟨n.label, n.start, n.end_, []⟩)

/-- Index of the last `start`-flagged node (`initial = state` overwrites). -/
def lastStartIdxAux : List GNode → Nat → Option Nat → Option Nat
  | [], _, acc => acc
  | n :: rest, i, acc => lastStartIdxAux rest (i + 1) (if n.start then some i else acc)

/-- Value of `initial` as computed by `_compileDFA` / `_compileTuringMachine`. -/
def lastStartIdx (nodes : List GNode) : Option Nat := lastStartIdxAux nodes 0 none

/-- Indices of all `start`-flagged nodes, in order (`initial.push(state)`). -/
def startIdxsAux : List GNode → Nat → List Nat
  | [], _ => []
  | n :: rest, i =>
    if n.start then i :: startIdxsAux rest (i + 1) else startIdxsAux rest (i + 1)

/-- Value of `initial` as computed by `_compileNFA` / `_compilePDA`. -/
def startIdxs (nodes : List GNode) : List Nat := startIdxsAux nodes 0

/-- Indices of all `end`-flagged nodes, in order (`final.push(state)`). -/
def finalIdxsAux : List GNode → Nat → List Nat
  | [], _ => []
  | n :: rest, i =>
    if n.end_ then i :: finalIdxsAux rest (i + 1) else finalIdxsAux rest (i + 1)

/-- Value of `final` as computed by the DFA/NFA/PDA compilers. -/
def finalIdxs (nodes : List GNode) : List Nat := finalIdxsAux nodes 0

/-- Second pass of `_compileDFA`/`_compileNFA` (lines 730-745 / 773-788):
push the transition onto its source state, then either enforce membership in
the explicit alphabet or extend the inferred one.  A transition endpoint
missing from the node list crashes in JS (modelled as a `TypeError`). -/
def compileFATrans (name : String) (nodes : List GNode) (explicit : Bool) :
    List GTransition → List CState → List String → Except JSError (List CState × List String)
  | [], states, alphabet => .ok (states, alphabet)
  | t :: rest, states, alphabet =>
    match nodeIdx nodes t.from_, nodeIdx nodes t.to_ with
    | some fi, some ti =>
      let states' := listModify states fi
        (fun s => { s with transitions := s.transitions ++ [⟨t.conditions, ti⟩] })
      if explicit then
        match t.conditions.find? (fun c => decide (c ∉ alphabet)) with
        | some _ =>
          .error (.plain ("Failed to compile as " ++ name ++ ": unrecognized symbol."))
        | none => compileFATrans name nodes explicit rest states' alphabet
      else compileFATrans name nodes explicit rest states' (t.conditions.foldl jsAdd alphabet)
    | _, _ => .error (.plain "TypeError")

/-- Method `_compileDFA` (lines 708-749). -/
def compileDFA (g : Graph) (alpha? : Option (List String)) : Except JSError CMachine :=
  match lastStartIdx g.nodes with
  | none => .error (.plain "Failed to compile as DFA: missing initial state.")
  | some init =>
    match compileFATrans "DFA" g.nodes alpha?.isSome g.transitions
        (buildStatesFA g.nodes) (initAlpha alpha?) with
    | .error e => .error e
    | .ok (states, alphabet) => .ok (.dfa states init (finalIdxs g.nodes) alphabet)

/-- Method `_compileNFA` (lines 751-792).  The source guard `if (!initial)` tests an
array, which is always truthy in JS, so no missing-initial check is made. -/
def compileNFA (g : Graph) (alpha? : Option (List String)) : Except JSError CMachine :=
  match compileFATrans "NFA" g.nodes alpha?.isSome g.transitions
      (buildStatesFA g.nodes) (initAlpha alpha?) with
  | .error e => .error e
  | .ok (states, alphabet) =>
    .ok (.nfa states (startIdxs g.nodes) (finalIdxs g.nodes) alphabet)

/-- Per-condition body of `_compilePDA`'s transition loop (lines 822-851). -/
def compilePDAConds (explicitA explicitS : Bool) (t : GTransition) :
    List String → List String → List String → List CPDACondition →
    Except JSError (List String × List String × List CPDACondition)
  | alphabet, stackAlphabet, [], acc => .ok (alphabet, stackAlphabet, acc)
  | alphabet, stackAlphabet, cond :: rest, acc =>
    let parts := splitSpaces cond
    let symbol := parts.getD 0 ""
    let readStackSymbol := parts.getD 1 ""
    let action := parts.getD 2 ""
    let actionStackSymbol := parts.getD 3 ""
    if explicitA = true ∧ symbol ∉ alphabet then
      .error (.symbolError "PDA" symbol t.from_.label t.to_.label "unrecognized symbol")
    else
      let alphabet1 := if explicitA then alphabet else jsAdd alphabet symbol
      if explicitS = true ∧ readStackSymbol ∉ stackAlphabet then
        .error (.symbolError "PDA" readStackSymbol t.from_.label t.to_.label
          "unrecognized stack symbol")
      else
        let stackAlphabet1 := if explicitS then stackAlphabet
          else jsAdd stackAlphabet readStackSymbol
        if explicitS = true ∧ actionStackSymbol ∉ stackAlphabet1 then
          .error (.symbolError "PDA" actionStackSymbol t.from_.label t.to_.label
            "unrecognized stack symbol")
        else
          let stackAlphabet2 := if explicitS then stackAlphabet1
            else jsAdd stackAlphabet1 actionStackSymbol
          if action ≠ "Push" ∧ action ≠ "Pop" then
            .error (.machineValidation "PDA"
              ("Stack action " ++ action ++ " must be either Push or Pop."))
          else
            compilePDAConds explicitA explicitS t alphabet1 stackAlphabet2
              rest (acc ++ [⟨symbol, readStackSymbol, action, actionStackSymbol⟩])

/-- First pass of `_compilePDA`. -/
def buildStatesPDA (nodes : List GNode) : List CPDAState :=
  nodes.map (fun n => ⟨n.label, n.start, n.end_, []⟩)

/-- Transition loop of `_compilePDA` (lines 817-854): all conditions of a
transition are parsed, then the compiled transition is pushed. -/
def compilePDATrans (nodes : List GNode) (explicitA explicitS : Bool) :
    List GTransition → List CPDAState → List String → List String →
    Except JSError (List CPDAState × List String × List String)
  | [], states, alphabet, stackAlphabet => .ok (states, alphabet, stackAlphabet)
  | t :: rest, states, alphabet, stackAlphabet =>
    match nodeIdx nodes t.from_, nodeIdx nodes t.to_ with
    | some fi, some ti =>
      match compilePDAConds explicitA explicitS t alphabet stackAlphabet t.conditions [] with
      | .error e => .error e
      | .ok (alphabet', stackAlphabet', conds) =>
        compilePDATrans nodes explicitA explicitS rest
          (listModify states fi
            (fun s => { s with transitions := s.transitions ++ [⟨conds, ti⟩] }))
          alphabet' stackAlphabet'
    | _, _ => .error (.plain "TypeError")

/-- Method `_compilePDA` (lines 794-858). -/
def compilePDA (g : Graph) (alpha? stackAlpha? : Option (List String)) :
    Except JSError CMachine :=
  if (startIdxs g.nodes).length = 0 then
    .error (.plain "Failed to compile as PDA: missing initial state.")
  else
    match compilePDATrans g.nodes alpha?.isSome stackAlpha?.isSome g.transitions
        (buildStatesPDA g.nodes) (initAlpha alpha?) (initAlpha stackAlpha?) with
    | .error e => .error e
    | .ok (states, alphabet, stackAlphabet) =>
      .ok (.pda states (startIdxs g.nodes) (finalIdxs g.nodes) alphabet stackAlphabet)

/-- First pass of `_compileTuringMachine` (lines 865-883): index of the last
start node, and of the last `end`-flagged node labeled accept resp. reject. -/
def tmNodeIdxsAux : List GNode → Nat → Option Nat → Option Nat → Option Nat →
    Option Nat × Option Nat × Option Nat
  | [], _, i, a, r => (i, a, r)
  | n :: rest, k, i, a, r =>
    tmNodeIdxsAux rest (k + 1)
      (if n.start then some k else i)
      (if n.end_ = true ∧ n.label = "accept" then some k else a)
      (if n.end_ = true ∧ n.label = "reject" then some k else r)

/-- Per-condition body of `_compileTuringMachine`'s transition loop
(lines 897-922), including the source's `'PDA'` tag on the write-symbol
error (line 912). -/
def compileTMConds (explicitA explicitT : Bool) (t : GTransition) :
    List String → List String → List String → List CTMCondition →
    Except JSError (List String × List String × List CTMCondition)
  | alphabet, tapeAlphabet, [], acc => .ok (alphabet, tapeAlphabet, acc)
  | alphabet, tapeAlphabet, cond :: rest, acc =>
    let parts := splitSpaces cond
    let readSymbol := parts.getD 0 ""
    let writeSymbol := parts.getD 1 ""
    let movement := parts.getD 2 ""
    let alphabet1 := if explicitA then alphabet else jsAdd alphabet readSymbol
    if explicitT = true ∧ readSymbol ∉ tapeAlphabet then
      .error (.symbolError "Turing Machine" readSymbol t.from_.label t.to_.label
        "unrecognized tape symbol")
    else
      let tapeAlphabet1 := if explicitT then tapeAlphabet else jsAdd tapeAlphabet readSymbol
      if explicitT = true ∧ writeSymbol ∉ tapeAlphabet1 then
        .error (.symbolError "PDA" writeSymbol t.from_.label t.to_.label
          "unrecognized tape symbol")
      else
        let tapeAlphabet2 := if explicitT then tapeAlphabet1 else jsAdd tapeAlphabet1 writeSymbol
        if movement ≠ "N" ∧ movement ≠ "L" ∧ movement ≠ "R" then
          .error (.machineValidation "Turing Machine"
            ("Tape movement " ++ movement ++ " must be N, L, or R."))
        else
          compileTMConds explicitA explicitT t alphabet1 tapeAlphabet2
            rest (acc ++ [⟨readSymbol, writeSymbol, movement⟩])

/-- First pass of `_compileTuringMachine` builds the state list. -/
def buildStatesTM (nodes : List GNode) : List CTMState :=
  nodes.map (fun n => ⟨n.label, n.start, n.end_, []⟩)

/-- Transition loop of `_compileTuringMachine` (lines 892-925). -/
def compileTMTrans (nodes : List GNode) (explicitA explicitT : Bool) :
    List GTransition → List CTMState → List String → List String →
    Except JSError (List CTMState × List String × List String)
  | [], states, alphabet, tapeAlphabet => .ok (states, alphabet, tapeAlphabet)
  | t :: rest, states, alphabet, tapeAlphabet =>
    match nodeIdx nodes t.from_, nodeIdx nodes t.to_ with
    | some fi, some ti =>
      match compileTMConds explicitA explicitT t alphabet tapeAlphabet t.conditions [] with
      | .error e => .error e
      | .ok (alphabet', tapeAlphabet', conds) =>
        compileTMTrans nodes explicitA explicitT rest
          (listModify states fi
            (fun s => { s with transitions := s.transitions ++ [⟨conds, ti⟩] }))
          alphabet' tapeAlphabet'
    | _, _ => .error (.plain "TypeError")

/-- Method `_compileTuringMachine` (lines 860-929); `final = [acceptNode, rejectNode]`. -/
def compileTM (g : Graph) (alpha? tapeAlpha? : Option (List String)) :
    Except JSError CMachine :=
  match tmNodeIdxsAux g.nodes 0 none none none with
  | (none, _, _) =>
    .error (.plain "Failed to compile as Turing Machine: missing initial state.")
  | (some _, none, _) =>
    .error (.plain "Failed to compile as Turing Machine: missing accept state.")
  | (some _, some _, none) =>
    .error (.plain "Failed to compile as Turing Machine: missing reject state.")
  | (some init, some acc, some rej) =>
    match compileTMTrans g.nodes alpha?.isSome tapeAlpha?.isSome g.transitions
        (buildStatesTM g.nodes) (initAlpha alpha?) (initAlpha tapeAlpha?) with
    | .error e => .error e
    | .ok (states, alphabet, tapeAlphabet) =>
      .ok (.tm states init [acc, rej] alphabet tapeAlphabet)

/-- Type `EvalResult` of src/app.d.ts: `extra.tape`/`extra.stack` are absent
(`none`) in every DFA/NFA result. -/
structure EvalResult where
  result : Bool
  tape : Option (List String)
  stack : Option (List String)
  deriving DecidableEq

/-- Method `_validateInput` (lines 1108-1116): every input character must be in the
compiled alphabet. -/
def validateInput (alphabet : List String) : List Char → Except JSError Unit
  | [] => .ok ()
  | c :: rest =>
    if String.singleton c ∈ alphabet then validateInput alphabet rest
    else .error (.plain ("Invalid input character " ++ String.singleton c))

/-- State lookup by index (JS holds direct references, always valid here). -/
def getState (states : List CState) (i : Nat) : CState :=
  (states[i]?).getD ⟨"", false, false, []⟩

/-- The shared per-timeline transition fold of `Engine.advance` (lines
280-294) and `Engine._faEval` (lines 350-364): an epsilon match always
overwrites slot `i`; a symbol match appends a new timeline if a step already
happened, otherwise overwrites slot `i`. -/
def stepTimelines (ts : List CTransition) (c : Char) (idx i : Nat)
    (tls : List (Nat × Nat)) : List (Nat × Nat) × Bool :=
  ts.foldl
    (fun acc t =>
      let tls0 := acc.1
      let stepped0 := acc.2
      let tls1 := if EPSILON ∈ t.conditions then tls0.set i (t.to_, idx) else tls0
      let stepped1 := if EPSILON ∈ t.conditions then true else stepped0
      if String.singleton c ∈ t.conditions then
        if stepped1 then (tls1 ++ [(t.to_, idx + 1)], stepped1)
        else (tls1.set i (t.to_, idx + 1), true)
      else (tls1, stepped1))
    (tls, false)

/-- The `while (true)` / indexed `for` loop of `_faEval` (lines 330-367),
with explicit fuel: `i` is the for-loop index, a pass over the (growing,
shrinking) timeline array restarts at 0 when `i` runs off the end. -/
def faEvalLoop (states : List CState) (input : List Char) :
    Nat → List (Nat × Nat) → Nat → Option EvalResult
  | 0, _, _ => none
  | fuel + 1, tls, i =>
    match tls[i]? with
    | none => faEvalLoop states input fuel tls 0
    | some (si, idx) =>
      match input[idx]? with
      | none =>
        if (getState states si).final then some ⟨true, none, none⟩
        else if tls.length = 1 then some ⟨false, none, none⟩
        else faEvalLoop states input fuel (tls.eraseIdx i) (i + 1)
      | some c =>
        faEvalLoop states input fuel
          (stepTimelines (getState states si).transitions c idx i tls).1 (i + 1)

/-- Method `_faEval` (lines 318-368) from given initial timelines. -/
def faEval (states : List CState) (initTls : List (Nat × Nat)) (input : List Char)
    (fuel : Nat) : Option EvalResult :=
  faEvalLoop states input fuel initTls 0

/-- Method `Engine.eval` (lines 301-316): validate the input characters, then run
`_faEval` for DFA/NFA; every other machine type falls to the `default`
branch `{ result: false, extra: {} }`. -/
def evalM (m : CMachine) (input : List Char) (fuel : Nat) :
    Except JSError (Option EvalResult) :=
  match validateInput m.alphabet input with
  | .error e => .error e
  | .ok () =>
    match m with
    | .dfa states init _ _ => .ok (faEval states [(init, 0)] input fuel)
    | .nfa states inits _ _ => .ok (faEval states (inits.map (fun s => (s, 0))) input fuel)
    | _ => .ok (some ⟨false, none, none⟩)

/-- Type `AlphabetSet` of src/utils/utils.ts. -/
structure AlphabetSet where
  alphabet : Option (List String)
  stackAlphabet : Option (List String)
  tapeAlphabet : Option (List String)
  deriving DecidableEq

/-- Type `ValidationOptions`. -/
structure ValidationOptions where
  requireAllTransitions : Bool
  deriving DecidableEq

/-- Type `MachineType` (`'Auto'` is request-only). -/
inductive MachineType where
  | DFA
  | NFA
  | PDA
  | TuringMachine
  | Auto
  deriving DecidableEq

/-- One `validate`-then-`_compileDFA` attempt, as `Engine.compile` pairs them. -/
def attemptDFA (g : Graph) (al : AlphabetSet) (o : ValidationOptions) :
    Except JSError CMachine :=
  match validateFA true g al.alphabet o.requireAllTransitions with
  | .error e => .error e
  | .ok () => compileDFA g al.alphabet

/-- One `validate`-then-`_compileNFA` attempt. -/
def attemptNFA (g : Graph) (al : AlphabetSet) (o : ValidationOptions) :
    Except JSError CMachine :=
  match validateFA false g al.alphabet o.requireAllTransitions with
  | .error e => .error e
  | .ok () => compileNFA g al.alphabet

/-- One `validate`-then-`_compilePDA` attempt. -/
def attemptPDA (g : Graph) (al : AlphabetSet) (o : ValidationOptions) :
    Except JSError CMachine :=
  match validatePDA g al.alphabet al.stackAlphabet o.requireAllTransitions with
  | .error e => .error e
  | .ok () => compilePDA g al.alphabet al.stackAlphabet

/-- One `validate`-then-`_compileTuringMachine` attempt. -/
def attemptTM (g : Graph) (al : AlphabetSet) (o : ValidationOptions) :
    Except JSError CMachine :=
  match validateTM g al.alphabet al.tapeAlphabet o.requireAllTransitions with
  | .error e => .error e
  | .ok () => compileTM g al.alphabet al.tapeAlphabet

/-- The engine fields `Engine.compile` touches: the graph layers it reads and
the `_machine` slot it writes.  (`_nodeMap` and the rendering/simulation
fields never reference the graph's nodes or transitions structurally and are
omitted.) -/
structure EngineState where
  nodes : List GNode
  transitions : List GTransition
  machine : Option CMachine
  deriving DecidableEq

/-- The graph the engine reads from its layers. -/
def graphOf (st : EngineState) : Graph := ⟨st.nodes, st.transitions⟩

/-- Assignment `this._machine = ...; return this._machine` on success; a thrown error
leaves `_machine` untouched. -/
def applyAttempt (st : EngineState) (r : Except JSError CMachine) :
    EngineState × Except JSError CMachine :=
  match r with
  | .ok m => ({ st with machine := some m }, .ok m)
  | .error e => (st, .error e)

/-- Method `Engine.compile` (lines 376-433): one validate+compile per requested type;
`Auto` tries Turing Machine, PDA, DFA, NFA in that order and collapses four
failures into one generic error. -/
def engineCompile (st : EngineState) (as_ : MachineType) (al : AlphabetSet)
    (o : ValidationOptions) : EngineState × Except JSError CMachine :=
  match as_ with
  | .DFA => applyAttempt st (attemptDFA (graphOf st) al o)
  | .NFA => applyAttempt st (attemptNFA (graphOf st) al o)
  | .PDA => applyAttempt st (attemptPDA (graphOf st) al o)
  | .TuringMachine => applyAttempt st (attemptTM (graphOf st) al o)
  | .Auto =>
    match attemptTM (graphOf st) al o with
    | .ok m => ({ st with machine := some m }, .ok m)
    | .error _ =>
      match attemptPDA (graphOf st) al o with
      | .ok m => ({ st with machine := some m }, .ok m)
      | .error _ =>
        match attemptDFA (graphOf st) al o with
        | .ok m => ({ st with machine := some m }, .ok m)
        | .error _ =>
          match attemptNFA (graphOf st) al o with
          | .ok m => ({ st with machine := some m }, .ok m)
          | .error _ =>
            (st, .error (.plain "Unable to compile as any FSM; check your machine and try again."))

/-! ### Concrete graphs for the scenario claims -/

/-- Compile result piped into `eval`, as the engine does
(`compile` then `eval` on the stored machine). -/
def evalCompiled (r : Except JSError CMachine) (input : List Char) (fuel : Nat) :
    Except JSError (Option EvalResult) :=
  match r with
  | .error e => .error e
  | .ok m => evalM m input fuel

/-- Branching-scenario node `q0` (start). -/
def q0 : GNode := ⟨0, "q0", true, false⟩

/-- Branching-scenario node `q1`. -/
def q1 : GNode := ⟨1, "q1", false, false⟩

/-- Branching-scenario node `q2` (final). -/
def q2 : GNode := ⟨2, "q2", false, true⟩

/-- The NFA-branching scenario graph: `q0-a->q1`, `q0-ε->q2`, `q2-a->q2`. -/
def nfaBranchGraph : Graph :=
  ⟨[q0, q1, q2], [⟨0, q0, q1, ["a"]⟩, ⟨1, q0, q2, [EPSILON]⟩, ⟨2, q2, q2, ["a"]⟩]⟩

/-- Node of the PDA condition-parsing scenario. -/
def pdaN0 : GNode := ⟨0, "q0", true, false⟩

/-- Second node of the PDA condition-parsing scenario. -/
def pdaN1 : GNode := ⟨1, "q1", false, false⟩

/-- Graph with the single PDA condition `"a b P c"`. -/
def pdaGraphP : Graph := ⟨[pdaN0, pdaN1], [⟨0, pdaN0, pdaN1, ["a b P c"]⟩]⟩

/-- Graph with the single PDA condition `"a b X c"`. -/
def pdaGraphX : Graph := ⟨[pdaN0, pdaN1], [⟨0, pdaN0, pdaN1, ["a b X c"]⟩]⟩

/-- A start node carrying an epsilon self-loop. -/
def epsNode : GNode := ⟨0, "q0", true, false⟩

/-- The epsilon self-loop transition. -/
def epsT : GTransition := ⟨0, epsNode, epsNode, [EPSILON]⟩

/-- One start state with an epsilon self-loop: a graph whose only condition
list contains the epsilon symbol. -/
def epsilonLoopGraph : Graph := ⟨[epsNode], [epsT]⟩

/-- A one-node graph with no start state. -/
def noStartGraph : Graph := ⟨[⟨0, "q0", false, false⟩], []⟩

/-- Nodes and transitions of a graph where `q0` claims symbol `a` twice. -/
def dupN0 : GNode := ⟨0, "q0", true, false⟩

/-- Second node of the duplicate-claim graph. -/
def dupN1 : GNode := ⟨1, "q1", false, false⟩

/-- First transition claiming `a` out of `q0`. -/
def dupT1 : GTransition := ⟨0, dupN0, dupN1, ["a"]⟩

/-- Second transition claiming `a` out of `q0`. -/
def dupT2 : GTransition := ⟨1, dupN0, dupN0, ["a"]⟩

/-- A graph where state `q0` has two outgoing transitions claiming `a`. -/
def dupGraph : Graph := ⟨[dupN0, dupN1], [dupT1, dupT2]⟩

/-! ### Basic counting and set lemmas -/

theorem countOcc_append (x : String) (a b : List String) :
    countOcc x (a ++ b) = countOcc x a + countOcc x b := by
  induction a with
  | nil => simp [countOcc]
  | cons y rest ih =>
    show (if y = x then 1 else 0) + countOcc x (rest ++ b) =
      ((if y = x then 1 else 0) + countOcc x rest) + countOcc x b
    rw [ih, Nat.add_assoc]

theorem countOcc_pos_iff_mem (x : String) (l : List String) :
    0 < countOcc x l ↔ x ∈ l := by
  induction l with
  | nil => simp [countOcc]
  | cons y rest ih =>
    show 0 < (if y = x then 1 else 0) + countOcc x rest ↔ _
    by_cases h : y = x
    · subst h; simp
    · simp [h, ih, Ne.symm h]

theorem countOcc_erase (x y : String) (l : List String) (hy : y ∈ l) :
    countOcc x (l.erase y) + (if y = x then 1 else 0) = countOcc x l := by
  induction l with
  | nil => cases hy
  | cons z rest ih =>
    by_cases hz : z = y
    · subst hz
      rw [List.erase_cons_head]
      show countOcc x rest + (if z = x then 1 else 0) =
        (if z = x then 1 else 0) + countOcc x rest
      omega
    · rw [List.erase_cons_tail (by simpa using hz)]
      show (if z = x then 1 else 0) + countOcc x (rest.erase y) + (if y = x then 1 else 0) =
        (if z = x then 1 else 0) + countOcc x rest
      have hy2 : y ∈ rest := by
        cases hy with
        | head => exact absurd rfl hz
        | tail _ h => exact h
      have := ih hy2
      omega

theorem countOcc_nodup (x : String) (l : List String) (hnd : l.Nodup) (hx : x ∈ l) :
    countOcc x l = 1 := by
  induction l with
  | nil => cases hx
  | cons y rest ih =>
    rw [List.nodup_cons] at hnd
    by_cases h : y = x
    · subst h
      have h0 : countOcc y rest = 0 := by
        by_contra hc
        exact hnd.1 ((countOcc_pos_iff_mem y rest).mp (Nat.pos_of_ne_zero hc))
      show (if y = y then 1 else 0) + countOcc y rest = 1
      rw [if_pos rfl, h0]
    · have hx2 : x ∈ rest := by
        cases hx with
        | head => exact absurd rfl h
        | tail _ hh => exact hh
      show (if y = x then 1 else 0) + countOcc x rest = 1
      rw [if_neg h, ih hnd.2 hx2]

theorem jsAdd_mem (y x : String) (s : List String) :
    y ∈ jsAdd s x ↔ y ∈ s ∨ y = x := by
  by_cases h : x ∈ s
  · simp only [jsAdd, if_pos h]
    constructor
    · exact fun hy => Or.inl hy
    · rintro (hy | rfl) <;> assumption
  · simp [jsAdd, if_neg h]

theorem jsAdd_nodup (x : String) (s : List String) (h : s.Nodup) :
    (jsAdd s x).Nodup := by
  by_cases hx : x ∈ s
  · simpa [jsAdd, hx] using h
  · rw [jsAdd, if_neg hx, List.nodup_append]
    refine ⟨h, List.nodup_singleton x, ?_⟩
    intro a ha hb
    rw [List.mem_singleton] at hb
    subst hb
    exact hx ha

theorem foldl_jsAdd_nodup (l : List String) :
    ∀ acc : List String, acc.Nodup → (l.foldl jsAdd acc).Nodup := by
  induction l with
  | nil => intro acc h; simpa using h
  | cons x rest ih => intro acc h; exact ih (jsAdd acc x) (jsAdd_nodup x acc h)

theorem mem_foldl_jsAdd (y : String) (l : List String) :
    ∀ acc : List String, (y ∈ l.foldl jsAdd acc ↔ y ∈ acc ∨ y ∈ l) := by
  induction l with
  | nil => intro acc; simp
  | cons x rest ih =>
    intro acc
    rw [List.foldl_cons, ih (jsAdd acc x), jsAdd_mem, List.mem_cons]
    tauto

theorem jsSetOf_mem (y : String) (l : List String) : y ∈ jsSetOf l ↔ y ∈ l := by
  simp [jsSetOf, mem_foldl_jsAdd]

theorem initAlpha_nodup (alphabet? : Option (List String)) : (initAlpha alphabet?).Nodup := by
  cases alphabet? with
  | none => simp [initAlpha]
  | some l => exact foldl_jsAdd_nodup l [] List.nodup_nil

theorem dfaAlpha_nodup (g : Graph) (alphabet? : Option (List String)) :
    (dfaAlpha g alphabet?).Nodup := by
  cases alphabet? with
  | none => exact foldl_jsAdd_nodup (condSyms g) [] List.nodup_nil
  | some l => exact foldl_jsAdd_nodup l [] List.nodup_nil

/-! ### `outgoingTransitions` map lemmas -/

theorem outLookup_mapAdd (t : GTransition) (n : GNode) :
    ∀ out : List (GNode × List GTransition),
      outLookup (mapAdd out t) n =
        if t.from_ = n then outLookup out n ++ [t] else outLookup out n := by
  intro out
  induction out with
  | nil =>
    by_cases h : t.from_ = n <;> simp [mapAdd, outLookup, h]
  | cons p rest ih =>
    obtain ⟨m, ts⟩ := p
    show outLookup (if m = t.from_ then (m, ts ++ [t]) :: rest else (m, ts) :: mapAdd rest t) n = _
    by_cases hm : m = t.from_
    · rw [if_pos hm]
      by_cases hn : m = n
      · have hfn : t.from_ = n := hm ▸ hn
        rw [show outLookup ((m, ts ++ [t]) :: rest) n = ts ++ [t] from by
          simp [outLookup, hn]]
        rw [if_pos hfn]
        simp [outLookup, hn]
      · have hfn : t.from_ ≠ n := fun h => hn (hm.trans h)
        rw [show outLookup ((m, ts ++ [t]) :: rest) n = outLookup rest n from by
          simp [outLookup, hn]]
        rw [if_neg hfn]
        simp [outLookup, hn]
    · rw [if_neg hm]
      by_cases hn : m = n
      · have hfn : t.from_ ≠ n := fun h => hm (hn.trans h.symm)
        rw [show outLookup ((m, ts) :: mapAdd rest t) n = ts from by simp [outLookup, hn]]
        rw [if_neg hfn]
        simp [outLookup, hn]
      · rw [show outLookup ((m, ts) :: mapAdd rest t) n = outLookup (mapAdd rest t) n from by
          simp [outLookup, hn]]
        rw [ih]
        by_cases hf : t.from_ = n
        · rw [if_pos hf, if_pos hf]
          simp [outLookup, hn]
        · rw [if_neg hf, if_neg hf]
          simp [outLookup, hn]

theorem outLookup_foldl_mapAdd (ts : List GTransition) :
    ∀ (out : List (GNode × List GTransition)) (n : GNode),
      outLookup (ts.foldl mapAdd out) n =
        outLookup out n ++ ts.filter (fun t => decide (t.from_ = n)) := by
  induction ts with
  | nil => intro out n; simp
  | cons t rest ih =>
    intro out n
    rw [List.foldl_cons, ih (mapAdd out t) n, outLookup_mapAdd]
    by_cases h : t.from_ = n
    · simp [h, List.filter_cons]
    · simp [h, List.filter_cons]

theorem outLookup_mem (out : List (GNode × List GTransition)) (n : GNode)
    (h : outLookup out n ≠ []) : (n, outLookup out n) ∈ out := by
  induction out with
  | nil => simp [outLookup] at h
  | cons p rest ih =>
    obtain ⟨m, ts⟩ := p
    by_cases hm : m = n
    · subst hm
      simp only [outLookup, if_pos rfl] at h ⊢
      exact List.mem_cons_self _ _
    · simp only [outLookup, if_neg hm] at h ⊢
      exact List.mem_cons_of_mem _ (ih h)

/-! ### Two distinct transitions claiming the same symbol -/

theorem countOcc_flatMap_two (x : String) :
    ∀ (l : List GTransition) (t1 t2 : GTransition), t1 ∈ l → t2 ∈ l → t1 ≠ t2 →
      x ∈ t1.conditions → x ∈ t2.conditions →
      2 ≤ countOcc x (l.flatMap (fun t => t.conditions)) := by
  intro l
  induction l with
  | nil => intro t1 t2 h1; cases h1
  | cons t rest ih =>
    intro t1 t2 h1 h2 hne hx1 hx2
    rw [List.flatMap_cons, countOcc_append]
    cases h1 with
    | head =>
      have h2' : t2 ∈ rest := by
        cases h2 with
        | head => exact absurd rfl hne
        | tail _ h => exact h
      have c1 : 0 < countOcc x t.conditions := (countOcc_pos_iff_mem _ _).mpr hx1
      have c2 : 0 < countOcc x (rest.flatMap (fun t => t.conditions)) :=
        (countOcc_pos_iff_mem _ _).mpr (List.mem_flatMap.mpr ⟨t2, h2', hx2⟩)
      omega
    | tail _ h1' =>
      cases h2 with
      | head =>
        have c1 : 0 < countOcc x t.conditions := (countOcc_pos_iff_mem _ _).mpr hx2
        have c2 : 0 < countOcc x (rest.flatMap (fun t => t.conditions)) :=
          (countOcc_pos_iff_mem _ _).mpr (List.mem_flatMap.mpr ⟨t1, h1', hx1⟩)
        omega
      | tail _ h2' =>
        have := ih t1 t2 h1' h2' hne hx1 hx2
        omega

/-! ### Analysis of DFA/NFA validation -/

theorem scanConds_ok (isDFA explicit : Bool) (t : GTransition) :
    ∀ (conds alpha a' : List String),
      scanConds isDFA explicit t alpha conds = .ok a' →
      a' = if explicit then alpha else conds.foldl jsAdd alpha := by
  intro conds
  induction conds with
  | nil =>
    intro alpha a' h
    simp only [scanConds] at h
    injection h with h
    subst h
    cases explicit <;> simp
  | cons sym rest ih =>
    intro alpha a' h
    simp only [scanConds] at h
    split at h
    · exact absurd h (by simp)
    · have := ih (if explicit then alpha else jsAdd alpha sym) a' h
      cases explicit
      · simpa using this
      · simpa using this

theorem scanFA_ok (isDFA explicit : Bool) :
    ∀ (ts : List GTransition) (alpha : List String)
      (out : List (GNode × List GTransition)) (a' : List String)
      (out' : List (GNode × List GTransition)),
      scanFA isDFA explicit ts alpha out = .ok (a', out') →
      a' = (if explicit then alpha
            else (ts.flatMap (fun t => t.conditions)).foldl jsAdd alpha) ∧
      out' = ts.foldl mapAdd out := by
  intro ts
  induction ts with
  | nil =>
    intro alpha out a' out' h
    simp only [scanFA] at h
    injection h with h
    injection h with h1 h2
    subst h1; subst h2
    cases explicit <;> simp
  | cons t rest ih =>
    intro alpha out a' out' h
    simp only [scanFA] at h
    cases hc : scanConds isDFA explicit t alpha t.conditions with
    | error e => rw [hc] at h; exact absurd h (by simp)
    | ok alpha1 =>
      rw [hc] at h
      have h1 := scanConds_ok isDFA explicit t t.conditions alpha alpha1 hc
      have h2 := ih alpha1 (mapAdd out t) a' out' h
      refine ⟨?_, by simpa using h2.2⟩
      rw [h2.1, h1]
      cases explicit
      · simp [List.flatMap_cons, List.foldl_append]
      · simp

theorem claimSyms_count (reqAll : Bool) (alpha : List String) (t : GTransition)
    (node : GNode) :
    ∀ (conds searching s' : List String),
      claimSyms true reqAll alpha t node searching conds = .ok s' →
      ∀ x, countOcc x conds + countOcc x s' = countOcc x searching := by
  intro conds
  induction conds with
  | nil =>
    intro searching s' h x
    simp only [claimSyms] at h
    injection h with h
    subst h
    simp [countOcc]
  | cons sym rest ih =>
    intro searching s' h x
    simp only [claimSyms] at h
    split at h
    · exact absurd h (by simp)
    · split at h
      · exact absurd h (by simp)
      · rename_i hc1 hc2
        have hs : sym ∈ searching := by
          by_contra hs
          exact hc2 ⟨Or.inl (by simp), hs⟩
        have hrec := ih (searching.erase sym) s' h x
        have herase := countOcc_erase x sym searching hs
        show (if sym = x then 1 else 0) + countOcc x rest + countOcc x s' =
          countOcc x searching
        omega

theorem claimTrans_count (reqAll : Bool) (alpha : List String) (node : GNode) :
    ∀ (ts : List GTransition) (searching s' : List String),
      claimTrans true reqAll alpha node ts searching = .ok s' →
      ∀ x, countOcc x (ts.flatMap (fun t => t.conditions)) + countOcc x s' =
        countOcc x searching := by
  intro ts
  induction ts with
  | nil =>
    intro searching s' h x
    simp only [claimTrans] at h
    injection h with h
    subst h
    simp [countOcc]
  | cons t rest ih =>
    intro searching s' h x
    simp only [claimTrans] at h
    cases hc : claimSyms true reqAll alpha t node searching t.conditions with
    | error e => rw [hc] at h; exact absurd h (by simp)
    | ok s1 =>
      rw [hc] at h
      have h1 := claimSyms_count reqAll alpha t node t.conditions searching s1 hc x
      have h2 := ih s1 s' h x
      rw [List.flatMap_cons, countOcc_append]
      omega

theorem checkCoverage_ok (reqAll : Bool) (alpha : List String) :
    ∀ out : List (GNode × List GTransition),
      checkCoverage true reqAll alpha out = .ok () →
      ∀ node ts, (node, ts) ∈ out →
        claimTrans true reqAll alpha node ts alpha = .ok [] := by
  intro out
  induction out with
  | nil => intro _ node ts hmem; cases hmem
  | cons p rest ih =>
    intro h node ts hmem
    obtain ⟨n0, ts0⟩ := p
    simp only [checkCoverage] at h
    cases hc : claimTrans true reqAll alpha n0 ts0 alpha with
    | error e => rw [hc] at h; exact absurd h (by simp)
    | ok s1 =>
      simp only [hc] at h
      split at h
      · exact absurd h (by simp)
      · rename_i hcnd
        have hs1 : s1 = [] := by
          by_cases hl : s1.length = 0
          · exact List.length_eq_zero.mp hl
          · exact absurd ⟨Or.inl (by simp), hl⟩ hcnd
        rcases List.mem_cons.mp hmem with heq | hm
        · cases heq
          rw [hs1] at hc
          exact hc
        · exact ih h node ts hm

theorem validateFA_ok_counts (g : Graph) (alphabet? : Option (List String)) (reqAll : Bool)
    (h : validateFA true g alphabet? reqAll = .ok ()) :
    ∀ n : GNode, transOf g n ≠ [] →
      ∀ x : String, countOcc x (nodeClaims g n) = countOcc x (dfaAlpha g alphabet?) := by
  intro n hne x
  cases hini : findInitial true g.nodes none with
  | error e => simp [validateFA, hini] at h
  | ok oini =>
    cases oini with
    | none => simp [validateFA, hini] at h
    | some ini =>
      cases hscan : scanFA true alphabet?.isSome g.transitions (initAlpha alphabet?) [] with
      | error e => simp [validateFA, hini, hscan] at h
      | ok pr =>
        obtain ⟨alpha, out⟩ := pr
        have hcov : checkCoverage true reqAll alpha out = .ok () := by
          simpa [validateFA, hini, hscan] using h
        have hsc := scanFA_ok true alphabet?.isSome g.transitions (initAlpha alphabet?)
          [] alpha out hscan
        have halpha : alpha = dfaAlpha g alphabet? := by
          rw [hsc.1]
          cases alphabet? with
          | none => simp [initAlpha, dfaAlpha, condSyms]
          | some l => simp [initAlpha, dfaAlpha, jsSetOf]
        have hout : outLookup out n = transOf g n := by
          rw [hsc.2, outLookup_foldl_mapAdd]
          simp [outLookup, transOf]
        have hmem : (n, transOf g n) ∈ out := by
          have := outLookup_mem out n (by rw [hout]; exact hne)
          rwa [hout] at this
        have hclaim := checkCoverage_ok reqAll alpha out hcov n (transOf g n) hmem
        have hcount := claimTrans_count reqAll alpha n (transOf g n) alpha [] hclaim
        have heq : countOcc x (nodeClaims g n) = countOcc x alpha := by
          have := hcount x
          simpa [nodeClaims, countOcc] using this
        rw [heq, halpha]

theorem validateFA_ok_claims (g : Graph) (alphabet? : Option (List String)) (reqAll : Bool)
    (h : validateFA true g alphabet? reqAll = .ok ()) :
    ∀ (n : GNode) (x : String), x ∈ nodeClaims g n →
      x ∈ dfaAlpha g alphabet? ∧ countOcc x (nodeClaims g n) = 1 := by
  intro n x hx
  have hne : transOf g n ≠ [] := by
    intro hnil
    rw [nodeClaims, hnil] at hx
    simp at hx
  have hcnt := validateFA_ok_counts g alphabet? reqAll h n hne x
  have hxc : 0 < countOcc x (nodeClaims g n) := (countOcc_pos_iff_mem x _).mpr hx
  have hxa : x ∈ dfaAlpha g alphabet? := (countOcc_pos_iff_mem x _).mp (by omega)
  have h1 : countOcc x (dfaAlpha g alphabet?) = 1 :=
    countOcc_nodup x _ (dfaAlpha_nodup g alphabet?) hxa
  exact ⟨hxa, by omega⟩

/-! ### Input validation lemmas -/

theorem validateInput_ok (alphabet : List String) :
    ∀ input : List Char, (∀ c ∈ input, String.singleton c ∈ alphabet) →
      validateInput alphabet input = .ok () := by
  intro input
  induction input with
  | nil => intro _; rfl
  | cons c rest ih =>
    intro h
    have hc : String.singleton c ∈ alphabet := h c (List.mem_cons_self c rest)
    simp only [validateInput, if_pos hc]
    exact ih (fun d hd => h d (List.mem_cons_of_mem c hd))

theorem validateInput_error (alphabet : List String) :
    ∀ input : List Char, (∃ c ∈ input, String.singleton c ∉ alphabet) →
      ∃ e, validateInput alphabet input = .error e := by
  intro input
  induction input with
  | nil => rintro ⟨c, hc, _⟩; cases hc
  | cons c rest ih =>
    rintro ⟨d, hd, hna⟩
    by_cases hc : String.singleton c ∈ alphabet
    · rcases List.mem_cons.mp hd with rfl | hd'
      · exact absurd hc hna
      · obtain ⟨e, he⟩ := ih ⟨d, hd', hna⟩
        exact ⟨e, by simpa [validateInput, hc] using he⟩
    · exact ⟨.plain ("Invalid input character " ++ String.singleton c), by
        simp [validateInput, hc]⟩

/-! ### No-start-state lemmas -/

theorem findInitial_no_start (isDFA : Bool) :
    ∀ (ns : List GNode) (acc : Option GNode), (∀ n ∈ ns, n.start = false) →
      findInitial isDFA ns acc = .ok acc := by
  intro ns
  induction ns with
  | nil => intro acc _; rfl
  | cons n rest ih =>
    intro acc h
    have hn : n.start = false := h n (List.mem_cons_self n rest)
    simp only [findInitial]
    rw [if_neg (by simp [hn]), if_neg (by simp [hn])]
    exact ih acc (fun m hm => h m (List.mem_cons_of_mem n hm))

theorem find?_start_none :
    ∀ ns : List GNode, (∀ n ∈ ns, n.start = false) →
      ns.find? (fun n => n.start) = none := by
  intro ns
  induction ns with
  | nil => intro _; rfl
  | cons n rest ih =>
    intro h
    have hn : n.start = false := h n (List.mem_cons_self n rest)
    have := ih (fun m hm => h m (List.mem_cons_of_mem n hm))
    simp [List.find?_cons, hn, this]

theorem scanTMNodes_ok_none :
    ∀ (ns : List GNode), (∀ n ∈ ns, n.start = false) →
      ∀ (a r : Option GNode) (res : Option GNode × Option GNode × Option GNode),
        scanTMNodes ns none a r = .ok res → res.1 = none := by
  intro ns
  induction ns with
  | nil =>
    intro _ a r res h
    simp only [scanTMNodes] at h
    injection h with h
    subst h
    rfl
  | cons n rest ih =>
    intro h a r res hres
    have hn : n.start = false := h n (List.mem_cons_self n rest)
    have hrest : ∀ m ∈ rest, m.start = false :=
      fun m hm => h m (List.mem_cons_of_mem n hm)
    by_cases he : n.end_ = true
    · by_cases hacc : n.label = "accept"
      · by_cases ha : a.isSome = true
        · exact absurd hres (by simp [scanTMNodes, hn, he, hacc, ha])
        · have hres' : scanTMNodes rest none (some n) r = .ok res := by
            simpa [scanTMNodes, hn, he, hacc, ha] using hres
          exact ih hrest _ _ res hres'
      · by_cases hrej : n.label = "reject"
        · by_cases hr : r.isSome = true
          · exact absurd hres (by simp [scanTMNodes, hn, he, hacc, hrej, hr])
          · have hres' : scanTMNodes rest none a (some n) = .ok res := by
              simpa [scanTMNodes, hn, he, hacc, hrej, hr] using hres
            exact ih hrest _ _ res hres'
        · exact absurd hres (by simp [scanTMNodes, hn, he, hacc, hrej])
    · have hres' : scanTMNodes rest none a r = .ok res := by
        simpa [scanTMNodes, hn, he] using hres
      exact ih hrest _ _ res hres'

/-! ### Claim theorems -/

/-- C1 (code bug): for the scenario NFA (`q0` start, `q1`, `q2` final;
`q0-a->q1`, `q0-ε->q2`, `q2-a->q2`, inferred alphabet), `eval("")` returns
`result: false`, not the claimed `true`: the end-of-input branch of
`_faEval` never follows epsilon transitions, so the epsilon-reachable final
state `q2` is never seen (the source marks this with a TODO at line 340);
`eval("aa")` does return `result: true` as claimed. -/
theorem faEval_branching_scenario :
    evalCompiled (compileNFA nfaBranchGraph none) [] 10 =
      .ok (some ⟨false, none, none⟩) ∧
    evalCompiled (compileNFA nfaBranchGraph none) ['a', 'a'] 30 =
      .ok (some ⟨true, none, none⟩) := by
  exact ⟨rfl, rfl⟩

/-- C2 (code bug): the PDA shape regex `[NPp]` accepts the editor-facing
single-character action of `"a b P c"`, but the following equality check
demands the full words `Push`/`Pop`, so validation and compilation both
reject the condition the claim says parses to `action: Push`; `"a b X c"`
is rejected by the shape regex, as the claim says. -/
theorem pda_condition_abPc_rejected :
    validatePDA pdaGraphP none none false =
      .error (.machineValidation "PDA" "Stack action P must be either Push or Pop.") ∧
    compilePDA pdaGraphP none none =
      .error (.machineValidation "PDA" "Stack action P must be either Push or Pop.") ∧
    validatePDA pdaGraphX none none false =
      .error (.conditionError "PDA" "a b X c" "q0" "q1"
        "could not be parsed as a PDA condition") := by
  exact ⟨rfl, rfl, rfl⟩

/-- C3 counterexample: a graph whose only transition's condition list contains
the epsilon symbol is accepted by DFA validation (and DFA compilation) when
the alphabet is inferred: epsilon is then simply inferred into the alphabet
and treated as an ordinary symbol, so the claim quantifying over every graph
is false. -/
theorem dfa_epsilon_accepted_counterexample :
    (∃ t ∈ epsilonLoopGraph.transitions, EPSILON ∈ t.conditions) ∧
    validateFA true epsilonLoopGraph none false = .ok () ∧
    attemptDFA epsilonLoopGraph ⟨none, none, none⟩ ⟨false⟩ =
      .ok (.dfa [⟨"q0", true, false, [⟨[EPSILON], 0⟩]⟩] 0 [] [EPSILON]) := by
  refine ⟨⟨epsT, by decide, by decide⟩, rfl, rfl⟩

/-- C3 amended: DFA validation rejects an epsilon condition only when an
explicit alphabet not containing the epsilon symbol is supplied; then every
graph with an epsilon condition fails DFA validation (with an inferred
alphabet the epsilon condition is accepted, see the counterexample). -/
theorem dfa_epsilon_explicit_alphabet_fails :
    ∀ (g : Graph) (la : List String) (reqAll : Bool) (t : GTransition),
      t ∈ g.transitions → EPSILON ∈ t.conditions → EPSILON ∉ la →
      validateFA true g (some la) reqAll ≠ .ok () := by
  intro g la reqAll t ht heps hnot hok
  have hf : t ∈ transOf g t.from_ := List.mem_filter.mpr ⟨ht, by simp⟩
  have hx : EPSILON ∈ nodeClaims g t.from_ :=
    List.mem_flatMap.mpr ⟨t, hf, heps⟩
  have hmem := (validateFA_ok_claims g (some la) reqAll hok t.from_ EPSILON hx).1
  exact hnot ((jsSetOf_mem _ _).mp (by simpa [dfaAlpha] using hmem))

/-- Witness for the amended C3: the epsilon self-loop graph fails DFA
validation under the explicit alphabet `{"a"}`. -/
theorem dfa_epsilon_explicit_alphabet_fails_witness :
    validateFA true epsilonLoopGraph (some ["a"]) false ≠ .ok () :=
  dfa_epsilon_explicit_alphabet_fails epsilonLoopGraph ["a"] false epsT
    (by decide) (by decide) (by decide)

/-- C4 counterexample: a graph with zero `start` nodes fails NFA validation
with the `no initial state` error, while the claim says NFA validation
succeeds on it. -/
theorem nfa_zero_start_fails_counterexample :
    validateFA false noStartGraph none false =
      .error (.plain "Failed to validate as NFA: no initial state.") := by
  exact rfl

/-- C4 amended: a graph with zero `start` nodes fails validation for all four
machine types, NFA included (NFA differs from DFA only in allowing multiple
start states, not zero). -/
theorem zero_start_fails_all_types :
    ∀ (g : Graph) (al : AlphabetSet) (reqAll : Bool),
      (∀ n ∈ g.nodes, n.start = false) →
      validateFA true g al.alphabet reqAll ≠ .ok () ∧
      validateFA false g al.alphabet reqAll ≠ .ok () ∧
      validatePDA g al.alphabet al.stackAlphabet reqAll ≠ .ok () ∧
      validateTM g al.alphabet al.tapeAlphabet reqAll ≠ .ok () := by
  intro g al reqAll h
  refine ⟨?_, ?_, ?_, ?_⟩
  · intro hok
    have hfi := findInitial_no_start true g.nodes none h
    simp [validateFA, hfi] at hok
  · intro hok
    have hfi := findInitial_no_start false g.nodes none h
    simp [validateFA, hfi] at hok
  · intro hok
    have hf := find?_start_none g.nodes h
    simp [validatePDA, hf] at hok
  · intro hok
    cases hscan : scanTMNodes g.nodes none none none with
    | error e => simp [validateTM, hscan] at hok
    | ok res =>
      have h1 := scanTMNodes_ok_none g.nodes h none none res hscan
      obtain ⟨i, a, r⟩ := res
      simp only [] at h1
      subst h1
      simp [validateTM, hscan] at hok

/-- Witness for the amended C4 at the concrete zero-start graph. -/
theorem zero_start_fails_all_types_witness :
    validateFA false noStartGraph none false ≠ .ok () :=
  (zero_start_fails_all_types noStartGraph ⟨none, none, none⟩ false (by decide)).2.1

/-- C5 (code bug): one step of the shared `advance`/`_faEval` transition fold.
With the symbol transition (`a`, to state 1) listed before the epsilon
transition (to state 2), the epsilon successor overwrites the timeline slot
already holding the symbol successor — the epsilon branch assigns the slot
without consulting `stepped` — so only one branch survives, contradicting
the claim that both always survive.  With the epsilon transition listed
first, the claimed replace-then-append behaviour is observed. -/
theorem step_symbol_then_epsilon_loses_branch :
    stepTimelines [⟨["a"], 1⟩, ⟨[EPSILON], 2⟩] 'a' 0 0 [(0, 0)] = ([(2, 0)], true) ∧
    stepTimelines [⟨[EPSILON], 2⟩, ⟨["a"], 1⟩] 'a' 0 0 [(0, 0)] =
      ([(2, 0), (1, 1)], true) := by
  exact ⟨rfl, rfl⟩

/-- C6: under `Auto`, `compile` attempts Turing Machine, then PDA, then DFA,
then NFA; the first validate+compile attempt to succeed determines the
result, and if all four fail the result is the single generic error, which
carries none of the four per-type failure reasons. -/
theorem auto_compile_priority_order :
    ∀ (st : EngineState) (al : AlphabetSet) (o : ValidationOptions),
      (∀ m, attemptTM (graphOf st) al o = .ok m →
        (engineCompile st .Auto al o).2 = .ok m) ∧
      (∀ e1 m, attemptTM (graphOf st) al o = .error e1 →
        attemptPDA (graphOf st) al o = .ok m →
        (engineCompile st .Auto al o).2 = .ok m) ∧
      (∀ e1 e2 m, attemptTM (graphOf st) al o = .error e1 →
        attemptPDA (graphOf st) al o = .error e2 →
        attemptDFA (graphOf st) al o = .ok m →
        (engineCompile st .Auto al o).2 = .ok m) ∧
      (∀ e1 e2 e3 m, attemptTM (graphOf st) al o = .error e1 →
        attemptPDA (graphOf st) al o = .error e2 →
        attemptDFA (graphOf st) al o = .error e3 →
        attemptNFA (graphOf st) al o = .ok m →
        (engineCompile st .Auto al o).2 = .ok m) ∧
      (∀ e1 e2 e3 e4, attemptTM (graphOf st) al o = .error e1 →
        attemptPDA (graphOf st) al o = .error e2 →
        attemptDFA (graphOf st) al o = .error e3 →
        attemptNFA (graphOf st) al o = .error e4 →
        (engineCompile st .Auto al o).2 =
          .error (.plain "Unable to compile as any FSM; check your machine and try again.")) := by
  intro st al o
  refine ⟨?_, ?_, ?_, ?_, ?_⟩
  · intro m h1
    simp [engineCompile, h1]
  · intro e1 m h1 h2
    simp [engineCompile, h1, h2]
  · intro e1 e2 m h1 h2 h3
    simp [engineCompile, h1, h2, h3]
  · intro e1 e2 e3 m h1 h2 h3 h4
    simp [engineCompile, h1, h2, h3, h4]
  · intro e1 e2 e3 e4 h1 h2 h3 h4
    simp [engineCompile, h1, h2, h3, h4]

/-- Witness for C6 at the empty graph, where all four attempts fail and the
generic error is produced. -/
theorem auto_compile_priority_order_witness :
    (engineCompile ⟨[], [], none⟩ .Auto ⟨none, none, none⟩ ⟨false⟩).2 =
      .error (.plain "Unable to compile as any FSM; check your machine and try again.") :=
  (auto_compile_priority_order ⟨[], [], none⟩ ⟨none, none, none⟩ ⟨false⟩).2.2.2.2
    (.plain "Failed to validate as Turing Machine: no initial state.")
    (.plain "Failed to validate as PDA: no initial state.")
    (.plain "Failed to validate as DFA: no initial state.")
    (.plain "Failed to validate as NFA: no initial state.")
    rfl rfl rfl rfl

/-- C7: if DFA validation succeeds then every state with outgoing transitions
claims each symbol of the effective alphabet via exactly one occurrence
among its outgoing transitions, and claims nothing outside the alphabet;
consequently a graph in which one state has two distinct outgoing
transitions claiming the same symbol can never pass DFA validation. -/
theorem dfa_determinism_check :
    (∀ (g : Graph) (alphabet? : Option (List String)) (reqAll : Bool) (n : GNode),
      validateFA true g alphabet? reqAll = .ok () →
      (∃ t ∈ g.transitions, t.from_ = n) →
      (∀ x ∈ dfaAlpha g alphabet?, countOcc x (nodeClaims g n) = 1) ∧
      (∀ x ∈ nodeClaims g n, x ∈ dfaAlpha g alphabet?)) ∧
    (∀ (g : Graph) (alphabet? : Option (List String)) (reqAll : Bool)
      (t1 t2 : GTransition) (x : String),
      t1 ∈ g.transitions → t2 ∈ g.transitions → t1 ≠ t2 →
      t1.from_ = t2.from_ → x ∈ t1.conditions → x ∈ t2.conditions →
      validateFA true g alphabet? reqAll ≠ .ok ()) := by
  constructor
  · intro g alphabet? reqAll n hok hout
    obtain ⟨t, ht, htn⟩ := hout
    have hne : transOf g n ≠ [] := by
      intro hnil
      have hm : t ∈ transOf g n := List.mem_filter.mpr ⟨ht, by simp [htn]⟩
      rw [hnil] at hm
      cases hm
    constructor
    · intro x hxa
      rw [validateFA_ok_counts g alphabet? reqAll hok n hne x]
      exact countOcc_nodup x _ (dfaAlpha_nodup g alphabet?) hxa
    · intro x hx
      exact (validateFA_ok_claims g alphabet? reqAll hok n x hx).1
  · intro g alphabet? reqAll t1 t2 x h1 h2 hne hfrom hx1 hx2 hok
    have hf1 : t1 ∈ transOf g t1.from_ := List.mem_filter.mpr ⟨h1, by simp⟩
    have hf2 : t2 ∈ transOf g t1.from_ := List.mem_filter.mpr ⟨h2, by simp [hfrom]⟩
    have h2le : 2 ≤ countOcc x (nodeClaims g t1.from_) :=
      countOcc_flatMap_two x (transOf g t1.from_) t1 t2 hf1 hf2 hne hx1 hx2
    have hx : x ∈ nodeClaims g t1.from_ := (countOcc_pos_iff_mem x _).mp (by omega)
    have hone := (validateFA_ok_claims g alphabet? reqAll hok t1.from_ x hx).2
    omega

/-- Witness for C7: the graph in which `q0` claims `a` via two distinct
transitions fails DFA validation. -/
theorem dfa_determinism_check_witness :
    validateFA true dupGraph none false ≠ .ok () :=
  dfa_determinism_check.2 dupGraph none false dupT1 dupT2 "a" (by decide) (by decide)
    (by decide) (by decide) (by decide) (by decide)

/-- C8: for every compiled machine and input containing a character outside
the machine's alphabet, `eval` fails with an error before any simulation
step, so no accept/reject result (and no partial trace) is produced. -/
theorem eval_rejects_out_of_alphabet :
    ∀ (m : CMachine) (input : List Char) (fuel : Nat),
      (∃ c ∈ input, String.singleton c ∉ m.alphabet) →
      ∃ e, evalM m input fuel = .error e := by
  intro m input fuel hbad
  obtain ⟨e, he⟩ := validateInput_error m.alphabet input hbad
  exact ⟨e, by simp [evalM, he]⟩

/-- Witness for C8: a DFA over `{"a"}` evaluated on `"b"`. -/
theorem eval_rejects_out_of_alphabet_witness :
    ∃ e, evalM (.dfa [⟨"q0", true, false, []⟩] 0 [] ["a"]) ['b'] 5 = .error e :=
  eval_rejects_out_of_alphabet (.dfa [⟨"q0", true, false, []⟩] 0 [] ["a"]) ['b'] 5
    ⟨'b', by decide, by decide⟩

/-- C9: `compile` (hence also the `validate` call inside every attempt,
including the four `Auto` attempts) never changes the graph layers: the node
list and the transition list of the engine state — and with them every
label, start flag, final flag, `from`, `to` and condition list — are the
same after the call, whether it succeeds or fails. -/
theorem compile_preserves_graph :
    ∀ (st : EngineState) (as_ : MachineType) (al : AlphabetSet)
      (o : ValidationOptions),
      (engineCompile st as_ al o).1.nodes = st.nodes ∧
      (engineCompile st as_ al o).1.transitions = st.transitions := by
  intro st as_ al o
  cases as_ <;> simp only [engineCompile, applyAttempt] <;>
    (repeat' split) <;> simp

/-- C10: on a PDA or Turing-machine compiled machine, `eval` with an
in-alphabet input always takes the `default` branch: it returns
`{result: false, extra: {}}`, never accepts and never throws. -/
theorem eval_pda_tm_always_false :
    ∀ (m : CMachine) (input : List Char) (fuel : Nat),
      m.isPDAorTM = true →
      (∀ c ∈ input, String.singleton c ∈ m.alphabet) →
      evalM m input fuel = .ok (some ⟨false, none, none⟩) := by
  intro m input fuel hm hin
  have hv := validateInput_ok m.alphabet input hin
  cases m with
  | dfa states i f a => simp [CMachine.isPDAorTM] at hm
  | nfa states i f a => simp [CMachine.isPDAorTM] at hm
  | pda states i f a s => simp [evalM, hv]
  | tm states i f a t => simp [evalM, hv]

/-- Witness for C10: a PDA machine over `{"a"}` on input `"a"`. -/
theorem eval_pda_tm_always_false_witness :
    evalM (.pda [] [] [] ["a"] []) ['a'] 3 = .ok (some ⟨false, none, none⟩) :=
  eval_pda_tm_always_false (.pda [] [] [] ["a"] []) ['a'] 3 (by decide) (by decide)

end JSFlap
